import Mathlib

/-!
Verification of vhadmin-ui: server-state reconciliation and command dispatch

A shallow embedding of `src/main.go`.

* Go strings are Lean `String`s; byte-level library functions (`strings.Split`,
  `strings.HasPrefix`, `strconv.ParseInt`) work on the character list, which agrees
  with the byte-level behaviour since every byte they inspect is ASCII.
* `map[string]string` is an association list with unique keys; the order of the
  list standing for the global `servers` is the order in which `range` visits it.
* The file system and the external processes are a `World`, sampled for the
  duration of one request.  Every external call is recorded in a log.
* A Go `panic` is the `Except.error` branch of a result.
* `int64` values are `Int`s wrapped with `wrap64`.
-/

set_option autoImplicit false

namespace Vhadmin

/-! ## Constants -/

def Stopped : String := "Stopped"
def Starting : String := "Starting"
def Running : String := "Running"
def ShuttingDown : String := "ShuttingDown"
def Updating : String := "Updating"
def Unknown : String := "Unknown"

def lgsmDir : String :=
  "/home/zach/.steam/steam/steamapps/common/Valheim dedicated server/lgsm/"

/-! ## `map[string]string` -/

/-- The Go type `serverList`, a `map[string]string`, as an association list. -/
abbrev serverList := List (String × String)

/-- The map read `v, exists := m[k]`. -/
def mapGet : serverList → String → Option String
  | [], _ => none
  | (a, b) :: m, k => if a = k then some b else mapGet m k

/-- The map write `m[k] = v`: replaces the entry of `k` or adds one. -/
def mapSet : serverList → String → String → serverList
  | [], k, v => [(k, v)]
  | (a, b) :: m, k, v => if a = k then (a, v) :: m else (a, b) :: mapSet m k v

/-- The keys of a map. -/
def mapKeys (m : serverList) : List String := m.map Prod.fst

/-- The global `servers`. -/
def servers : serverList :=
  [("Rotis", "vhserver-2"), ("Default", "vhserver")]

/-! ## Library functions used by the handler -/

/-- The Go call `strings.Split(s, "\n")`, for a one-character separator: the pieces
of `s` between the separators, one more than there are separators. -/
def Split : List Char → Char → List (List Char)
  | [], _ => [[]]
  | c :: cs, sep =>
    if c = sep then [] :: Split cs sep
    else
      match Split cs sep with
      | [] => [[c]]
      | l :: ls => (c :: l) :: ls

/-- The Go call `strings.HasPrefix(s, p)`. -/
def HasPrefix (s p : List Char) : Bool :=
  decide (s.take p.length = p)

/-- The Go call `strings.HasSuffix(s, p)`. -/
def HasSuffix (s p : List Char) : Bool :=
  decide (s.drop (s.length - p.length) = p)

/-- The two errors of `strconv`. -/
inductive NumError where
  | ErrSyntax
  | ErrRange
  deriving DecidableEq, Repr

/-- Conversion of a 64-bit pattern to `int64`, and the result of `int64` arithmetic. -/
def wrap64 (x : Int) : Int :=
  (x + 2 ^ 63) % 2 ^ 64 - 2 ^ 63

def maxUint64 : Nat := 2 ^ 64 - 1

/-- The digit loop of `strconv.ParseUint(s, 10, 64)`.  A byte that is not a decimal
digit is a syntax error (a letter has digit value at least 10, the base, and an
underscore is only accepted for base 0); `n` is a `uint64`. -/
def parseUintLoop : List Char → Nat → Nat × Option NumError
  | [], n => (n, none)
  | c :: cs, n =>
    if 48 ≤ c.toNat ∧ c.toNat ≤ 57 then
      if n ≥ maxUint64 / 10 + 1 then (maxUint64, some .ErrRange)
      else
        let n10 := n * 10
        let n1 := (n10 + (c.toNat - 48)) % 2 ^ 64
        if n1 < n10 ∨ n1 > maxUint64 then (maxUint64, some .ErrRange)
        else parseUintLoop cs n1
    else (0, some .ErrSyntax)

/-- The Go call `strconv.ParseUint(s, 10, 64)`: the value and the error. -/
def ParseUint (s : List Char) : Nat × Option NumError :=
  if s = [] then (0, some .ErrSyntax) else parseUintLoop s 0

/-- The Go call `strconv.ParseInt(s, 10, 64)`: the value and the error. -/
def ParseInt (s : List Char) : Int × Option NumError :=
  match s with
  | [] => (0, some .ErrSyntax)
  | c :: cs =>
    let neg : Bool := decide (c = '-')
    let s1 := if c = '+' ∨ c = '-' then cs else c :: cs
    match ParseUint s1 with
    | (_, some .ErrSyntax) => (0, some .ErrSyntax)
    | (un, _) =>
      if neg = false ∧ un ≥ 2 ^ 63 then (2 ^ 63 - 1, some .ErrRange)
      else if neg = true ∧ un > 2 ^ 63 then (-(2 ^ 63), some .ErrRange)
      else
        let n := wrap64 un
        (if neg then wrap64 (-n) else n, none)

/-- Decimal digits of `n`, most significant first, in front of `acc`. -/
def formatUint : Nat → Nat → List Char → List Char
  | 0, _, acc => acc
  | fuel + 1, n, acc =>
    let acc1 := Nat.digitChar (n % 10) :: acc
    if n / 10 = 0 then acc1 else formatUint fuel (n / 10) acc1

/-- The decimal rendering of an integer: the Go call `fmt.Sprintf("%d", x)` when `x`
is an `int64`. -/
def Sprintf_d (x : Int) : String :=
  if x < 0 then String.mk ('-' :: formatUint (x.natAbs + 1) x.natAbs [])
  else String.mk (formatUint (x.natAbs + 1) x.natAbs [])

/-! ## The outside world -/

/-- Outcome of `os.ReadFile`: an error for which `os.IsNotExist` holds, any other
error, or the content. -/
inductive ReadResult where
  | notExist
  | otherErr
  | data (content : String)
  deriving DecidableEq, Repr

/-- What a request finds outside the process: the file system, and what
`exec.Command(name, args...).Output()` yields (`none` for an error). -/
structure World where
  readFile : String → ReadResult
  output : String → List String → Option String

/-- The external calls a request makes.  `readFile` and `probe` carry the key of the
`range` iteration that makes them; `spawn` is a `go` statement running a toolchain
command. -/
inductive Event where
  | readFile (key : String) (path : String)
  | probe (key : String) (name : String) (args : List String)
  | spawn (name : String) (verb : String)
  deriving DecidableEq, Repr

/-- A panic of `getServerStatuses`: `panic(err)` or the index `lines[2]` out of range. -/
inductive Panic where
  | readError
  | indexOutOfRange
  deriving DecidableEq, Repr

deriving instance DecidableEq for Except

/-- The path of the lock file of the physical identifier `v`. -/
def lockPath (v : String) : String :=
  lgsmDir ++ ("lock/" ++ v ++ ".lock")

/-- The arguments of the probe command for the `int64` value `port`. -/
def probeArgs (ip : String) (port : Int) : List String :=
  [lgsmDir ++ "functions/query_gsquery.py", "-a", ip, "-p", Sprintf_d (wrap64 (port + 1)),
    "-e", "protocol-valve"]

/-! ## `getServerStatuses` -/

/-- The state the loop body assigns once the port is known: the probe is run, and
only an output beginning with `OK` gives `Running`. -/
def probeStatus (w : World) (ip : String) (port : Int) : String :=
  match w.output "python" (probeArgs ip port) with
  | none => Unknown
  | some resp => if HasPrefix resp.data "OK".data then Running else Unknown

/-- The log of external calls and the returned map, or the panic. -/
structure Pass where
  log : List Event
  result : Except Panic serverList

/-- The loop `for k, v := range servers` of `getServerStatuses`, from the entries
still to visit and the map `statuses` built so far. -/
def rangeServers (w : World) (ip : String) : serverList → serverList → Pass
  | [], statuses => ⟨[], .ok statuses⟩
  | (k, v) :: rest, statuses =>
    match w.readFile (lockPath v) with
    | .notExist =>
      let p := rangeServers w ip rest (mapSet statuses k Stopped)
      ⟨.readFile k (lockPath v) :: p.log, p.result⟩
    | .otherErr => ⟨[.readFile k (lockPath v)], .error .readError⟩
    | .data str =>
      match (Split str.data '\n')[2]? with
      | none => ⟨[.readFile k (lockPath v)], .error .indexOutOfRange⟩
      | some portString =>
        let port := (ParseInt portString).1
        let p := rangeServers w ip rest (mapSet statuses k (probeStatus w ip port))
        ⟨.readFile k (lockPath v) :: .probe k "python" (probeArgs ip port) :: p.log, p.result⟩

/-- The function `getServerStatuses`, with the globals `servers` and `ip` as arguments. -/
def getServerStatuses (w : World) (ip : String) (servers : serverList) : Pass :=
  rangeServers w ip servers []

/-! ## `ServeHTTP` -/

/-- The Go type `serverRequest`. -/
structure serverRequest where
  Server : String
  Action : String
  deriving DecidableEq, Repr

/-- The Go type `response`; `json.Marshal` of it is left abstract. -/
structure response where
  Servers : serverList
  deriving DecidableEq, Repr

/-- The request as the handler reads it: the method, and what `ioutil.ReadAll(req.Body)`
yields (`none` for an error). -/
structure Request where
  Method : String
  Body : Option String

/-- An `http.ResponseWriter`: the status code sent, if any yet, and the bodies written. -/
structure ResponseWriter where
  status : Option Nat
  written : List response
  deriving DecidableEq, Repr

/-- The call `w.WriteHeader(code)`: a second call, or one after `Write`, is ignored. -/
def ResponseWriter.WriteHeader (rw : ResponseWriter) (code : Nat) : ResponseWriter :=
  match rw.status with
  | none => { rw with status := some code }
  | some _ => rw

/-- The call `w.Write(data)`: sends status 200 first when no status was sent. -/
def ResponseWriter.Write (rw : ResponseWriter) (r : response) : ResponseWriter :=
  match rw.status with
  | none => { status := some 200, written := rw.written ++ [r] }
  | some _ => { rw with written := rw.written ++ [r] }

/-- A writer nothing was sent on. -/
def freshWriter : ResponseWriter := ⟨none, []⟩

/-- The executable of `startServer`, `stopServer` and `updateServer`. -/
def serverCmd (server : String) : String :=
  lgsmDir ++ ("../" ++ server)

/-- The function `execServerCmd` on the command `name verb`: `none` for a nil error. -/
def execServerCmd (w : World) (name verb : String) : Option String :=
  match w.output name [verb] with
  | none => some "exec error"
  | some resp => if HasSuffix resp.data "with code: 0".data then none else some resp

/-- The function `startServer`, run by a `go` statement. -/
def startServer (w : World) (server : String) : Option String :=
  execServerCmd w (serverCmd server) "start"

/-- The function `updateServer`, run by a `go` statement. -/
def updateServer (w : World) (server : String) : Option String :=
  execServerCmd w (serverCmd server) "update"

/-- The function `stopServer`, run by a `go` statement. -/
def stopServer (w : World) (server : String) : Option String :=
  execServerCmd w (serverCmd server) "stop"

/-- The log of external calls of one request and the writer after it, or the panic
that leaves the handler. -/
structure Served where
  log : List Event
  result : Except Panic ResponseWriter

/-- The method `serverList.ServeHTTP` on the receiver `s`, with the globals `servers`
and `ip` and the function `json.Unmarshal` (`none` for an error) as arguments. -/
def ServeHTTP (w : World) (ip : String) (servers : serverList)
    (unmarshal : String → Option serverRequest)
    (s : serverList) (rw : ResponseWriter) (req : Request) : Served :=
  if req.Method = "GET" then
    let p := getServerStatuses w ip servers
    match p.result with
    | .error e => ⟨p.log, .error e⟩
    | .ok statuses => ⟨p.log, .ok (rw.Write ⟨statuses⟩)⟩
  else if req.Method = "POST" then
    match req.Body with
    | none => ⟨[], .ok (rw.WriteHeader 500)⟩
    | some data =>
      match unmarshal data with
      | none => ⟨[], .ok (rw.WriteHeader 400)⟩
      | some body =>
        match mapGet s body.Server with
        | some server =>
          let p := getServerStatuses w ip servers
          match p.result with
          | .error e => ⟨p.log, .error e⟩
          | .ok statuses =>
            if body.Action = "Start" then
              ⟨p.log ++ [.spawn (serverCmd server) "start"],
                .ok (rw.Write ⟨mapSet statuses server Starting⟩)⟩
            else if body.Action = "Stop" then
              ⟨p.log ++ [.spawn (serverCmd server) "stop"],
                .ok (rw.Write ⟨mapSet statuses server ShuttingDown⟩)⟩
            else if body.Action = "Update" then
              ⟨p.log ++ [.spawn (serverCmd server) "update"],
                .ok (rw.Write ⟨mapSet statuses server Updating⟩)⟩
            else
              ⟨p.log, .ok ((rw.WriteHeader 400).Write ⟨statuses⟩)⟩
        | none => ⟨[], .ok (rw.WriteHeader 400)⟩
  else ⟨[], .ok (rw.WriteHeader 405)⟩

/-! ## One iteration of the loop, for the proofs -/

/-- The state one iteration assigns for the physical identifier `v`, `none` when the
iteration panics. -/
def instanceState (w : World) (ip : String) (v : String) : Option String :=
  match w.readFile (lockPath v) with
  | .notExist => some Stopped
  | .otherErr => none
  | .data str =>
    match (Split str.data '\n')[2]? with
    | none => none
    | some portString => some (probeStatus w ip (ParseInt portString).1)

/-- The external calls one iteration makes for the entry `(k, v)`. -/
def instanceLog (w : World) (ip : String) (k v : String) : List Event :=
  match w.readFile (lockPath v) with
  | .data str =>
    match (Split str.data '\n')[2]? with
    | some portString =>
      [.readFile k (lockPath v), .probe k "python" (probeArgs ip (ParseInt portString).1)]
    | none => [.readFile k (lockPath v)]
  | _ => [.readFile k (lockPath v)]

/-! ## Concrete worlds and requests -/

/-- The address used in the examples. -/
def exampleIp : String := "203.0.113.7"

/-- No lock file exists and no command succeeds. -/
def worldAllStopped : World where
  readFile _ := .notExist
  output _ _ := none

/-- Only `vhserver` has a lock file, with base port 2456; the probe of port 2457
answers `OK`. -/
def worldDefaultUp : World where
  readFile p := if p = lockPath "vhserver" then .data "vhserver\n1700000000\n2456\n" else .notExist
  output _ args := if args = probeArgs exampleIp 2456 then some "OK: responding" else none

/-- The lock file of `vhserver` exists but cannot be read. -/
def worldReadError : World where
  readFile p := if p = lockPath "vhserver" then .otherErr else .notExist
  output _ _ := none

/-- The lock file of `vhserver` holds `abc` as its third line. -/
def worldBadPort : World where
  readFile p := if p = lockPath "vhserver" then .data "vhserver\n1700000000\nabc" else .notExist
  output _ _ := none

/-- The lock file of `vhserver` holds the largest `int64` as its third line. -/
def worldMaxPort : World where
  readFile p :=
    if p = lockPath "vhserver" then .data "vhserver\n1700000000\n9223372036854775807"
    else .notExist
  output _ _ := none

/-- The lock file of `vhserver` holds the largest `int64` plus one as its third line. -/
def worldOverPort : World where
  readFile p :=
    if p = lockPath "vhserver" then .data "vhserver\n1700000000\n9223372036854775808"
    else .notExist
  output _ _ := none

/-- The lock file of `vhserver` holds the smallest `int64` minus one as its third line. -/
def worldUnderPort : World where
  readFile p :=
    if p = lockPath "vhserver" then .data "vhserver\n1700000000\n-9223372036854775809"
    else .notExist
  output _ _ := none

/-- A stand-in for `json.Unmarshal` on four request bodies. -/
def exampleUnmarshal (data : String) : Option serverRequest :=
  if data = "start Rotis" then some ⟨"Rotis", "Start"⟩
  else if data = "restart Default" then some ⟨"Default", "Restart"⟩
  else if data = "start Z" then some ⟨"Z", "Start"⟩
  else if data = "stop Default" then some ⟨"Default", "Stop"⟩
  else none

/-! ## Maps -/

theorem mapGet_mapSet_self (m : serverList) (k v : String) :
    mapGet (mapSet m k v) k = some v := by
  induction m with
  | nil => simp [mapSet, mapGet]
  | cons hd tl ih =>
    obtain ⟨a, b⟩ := hd
    by_cases h : a = k
    · simp [mapSet, mapGet, h]
    · simp [mapSet, mapGet, h, ih]

theorem mapGet_mapSet_of_ne (m : serverList) (k v x : String) (hx : x ≠ k) :
    mapGet (mapSet m k v) x = mapGet m x := by
  induction m with
  | nil => simp [mapSet, mapGet, Ne.symm hx]
  | cons hd tl ih =>
    obtain ⟨a, b⟩ := hd
    by_cases h : a = k
    · subst h
      simp [mapSet, mapGet, Ne.symm hx]
    · by_cases h2 : a = x
      · subst h2
        simp [mapSet, mapGet, h]
      · simp [mapSet, mapGet, h, h2, ih]

theorem mem_mapKeys_mapSet (m : serverList) (k v x : String) :
    x ∈ mapKeys (mapSet m k v) ↔ x = k ∨ x ∈ mapKeys m := by
  induction m with
  | nil => simp [mapSet, mapKeys]
  | cons hd tl ih =>
    obtain ⟨a, b⟩ := hd
    by_cases h : a = k
    · subst h
      simp [mapSet, mapKeys]
    · have ih2 : x ∈ List.map Prod.fst (mapSet tl k v) ↔ x = k ∨ x ∈ List.map Prod.fst tl := ih
      simp only [mapSet, mapKeys, h, if_false, List.map_cons, List.mem_cons, ih2]
      tauto

theorem nodup_mapKeys_mapSet (m : serverList) (k v : String) (h : (mapKeys m).Nodup) :
    (mapKeys (mapSet m k v)).Nodup := by
  induction m with
  | nil => simp [mapSet, mapKeys]
  | cons hd tl ih =>
    obtain ⟨a, b⟩ := hd
    have h1 : a ∉ mapKeys tl ∧ (mapKeys tl).Nodup := by
      simpa [mapKeys] using h
    by_cases hk : a = k
    · subst hk
      simpa [mapSet, mapKeys] using h
    · have h2 : a ∉ mapKeys (mapSet tl k v) := by
        rw [mem_mapKeys_mapSet]
        rintro (h3 | h3)
        · exact hk h3
        · exact h1.1 h3
      have h3 := ih h1.2
      simp only [mapSet, hk, if_false]
      exact List.nodup_cons.mpr ⟨h2, h3⟩

theorem mapGet_eq_none_iff (m : serverList) (k : String) :
    mapGet m k = none ↔ k ∉ mapKeys m := by
  induction m with
  | nil => simp [mapGet, mapKeys]
  | cons hd tl ih =>
    obtain ⟨a, b⟩ := hd
    have ih2 : mapGet tl k = none ↔ k ∉ List.map Prod.fst tl := ih
    by_cases h : a = k
    · simp [mapGet, mapKeys, h]
    · simp only [mapGet, mapKeys, h, if_false, List.map_cons, List.mem_cons, ih2]
      constructor
      · rintro h1 (h2 | h2)
        · exact h h2.symm
        · exact h1 h2
      · intro h1 h2
        exact h1 (Or.inr h2)

theorem mapGet_of_mem (m : serverList) (k v : String) (hn : (mapKeys m).Nodup)
    (h : (k, v) ∈ m) : mapGet m k = some v := by
  induction m with
  | nil => simp at h
  | cons hd tl ih =>
    obtain ⟨a, b⟩ := hd
    have h1 : a ∉ mapKeys tl ∧ (mapKeys tl).Nodup := by
      simpa [mapKeys] using hn
    rcases List.mem_cons.mp h with h2 | h2
    · cases h2
      simp [mapGet]
    · have hne : a ≠ k := by
        rintro rfl
        exact h1.1 (List.mem_map.mpr ⟨(a, v), h2, rfl⟩)
      simp [mapGet, hne, ih h1.2 h2]

theorem mem_of_mapGet (m : serverList) (k v : String) (h : mapGet m k = some v) :
    (k, v) ∈ m := by
  induction m with
  | nil => simp [mapGet] at h
  | cons hd tl ih =>
    obtain ⟨a, b⟩ := hd
    by_cases hk : a = k
    · subst hk
      simp [mapGet] at h
      simp [h]
    · simp only [mapGet, hk, if_false] at h
      exact List.mem_cons_of_mem _ (ih h)

/-! ## The loop in terms of one iteration -/

theorem rangeServers_cons (w : World) (ip : String) (k v : String) (rest st : serverList) :
    (∃ s, instanceState w ip v = some s ∧
      rangeServers w ip ((k, v) :: rest) st =
        ⟨instanceLog w ip k v ++ (rangeServers w ip rest (mapSet st k s)).log,
          (rangeServers w ip rest (mapSet st k s)).result⟩) ∨
    (∃ e, instanceState w ip v = none ∧
      rangeServers w ip ((k, v) :: rest) st = ⟨instanceLog w ip k v, .error e⟩) := by
  cases hr : w.readFile (lockPath v) with
  | notExist =>
    left
    exact ⟨Stopped, by simp [instanceState, hr], by simp [rangeServers, instanceLog, hr]⟩
  | otherErr =>
    right
    exact ⟨.readError, by simp [instanceState, hr], by simp [rangeServers, instanceLog, hr]⟩
  | data str =>
    cases hl : (Split str.data '\n')[2]? with
    | none =>
      right
      exact ⟨.indexOutOfRange, by simp [instanceState, hr, hl],
        by simp [rangeServers, instanceLog, hr, hl]⟩
    | some line =>
      left
      exact ⟨probeStatus w ip (ParseInt line).1, by simp [instanceState, hr, hl],
        by simp [rangeServers, instanceLog, hr, hl]⟩

/-- The pass returns a map exactly when no iteration panics. -/
theorem rangeServers_ok_iff (w : World) (ip : String) (cfg st : serverList) :
    (∃ m, (rangeServers w ip cfg st).result = .ok m) ↔
      ∀ p ∈ cfg, instanceState w ip p.2 ≠ none := by
  induction cfg generalizing st with
  | nil => simp [rangeServers]
  | cons hd tl ih =>
    obtain ⟨k, v⟩ := hd
    rcases rangeServers_cons w ip k v tl st with ⟨s, hs, heq⟩ | ⟨e, hs, heq⟩
    · rw [heq]
      simp only [List.mem_cons, forall_eq_or_imp, hs]
      rw [ih]
      simp
    · rw [heq]
      simp [hs]

/-- The keys of the returned map: those already there and those visited. -/
theorem rangeServers_keys (w : World) (ip : String) (cfg st m : serverList)
    (h : (rangeServers w ip cfg st).result = .ok m) (x : String) :
    x ∈ mapKeys m ↔ x ∈ mapKeys st ∨ x ∈ mapKeys cfg := by
  induction cfg generalizing st with
  | nil =>
    simp [rangeServers] at h
    simp [h, mapKeys]
  | cons hd tl ih =>
    obtain ⟨k, v⟩ := hd
    rcases rangeServers_cons w ip k v tl st with ⟨s, _, heq⟩ | ⟨e, _, heq⟩
    · rw [heq] at h
      rw [ih _ h, mem_mapKeys_mapSet]
      simp only [mapKeys, List.map_cons, List.mem_cons]
      tauto
    · rw [heq] at h
      simp at h

theorem rangeServers_nodup (w : World) (ip : String) (cfg st m : serverList)
    (h : (rangeServers w ip cfg st).result = .ok m) (hst : (mapKeys st).Nodup) :
    (mapKeys m).Nodup := by
  induction cfg generalizing st with
  | nil =>
    simp [rangeServers] at h
    simpa [h] using hst
  | cons hd tl ih =>
    obtain ⟨k, v⟩ := hd
    rcases rangeServers_cons w ip k v tl st with ⟨s, _, heq⟩ | ⟨e, _, heq⟩
    · rw [heq] at h
      exact ih _ h (nodup_mapKeys_mapSet st k s hst)
    · rw [heq] at h
      simp at h

/-- A key that is not visited keeps its entry. -/
theorem rangeServers_get_of_not_mem (w : World) (ip : String) (cfg st m : serverList)
    (h : (rangeServers w ip cfg st).result = .ok m) (x : String) (hx : x ∉ mapKeys cfg) :
    mapGet m x = mapGet st x := by
  induction cfg generalizing st with
  | nil =>
    simp [rangeServers] at h
    simp [h]
  | cons hd tl ih =>
    obtain ⟨k, v⟩ := hd
    have hx2 : x ≠ k ∧ x ∉ mapKeys tl := by
      simpa [mapKeys] using hx
    rcases rangeServers_cons w ip k v tl st with ⟨s, _, heq⟩ | ⟨e, _, heq⟩
    · rw [heq] at h
      rw [ih _ h hx2.2, mapGet_mapSet_of_ne _ _ _ _ hx2.1]
    · rw [heq] at h
      simp at h

/-- A visited key holds the state its iteration assigned. -/
theorem rangeServers_get_of_mem (w : World) (ip : String) (cfg st m : serverList)
    (h : (rangeServers w ip cfg st).result = .ok m) (hn : (mapKeys cfg).Nodup)
    (k v : String) (hk : (k, v) ∈ cfg) :
    mapGet m k = instanceState w ip v := by
  induction cfg generalizing st with
  | nil => simp at hk
  | cons hd tl ih =>
    obtain ⟨k0, v0⟩ := hd
    have hn2 : k0 ∉ mapKeys tl ∧ (mapKeys tl).Nodup := by
      simpa [mapKeys] using hn
    rcases rangeServers_cons w ip k0 v0 tl st with ⟨s, hs, heq⟩ | ⟨e, _, heq⟩
    · rw [heq] at h
      rcases List.mem_cons.mp hk with h2 | h2
      · cases h2
        rw [rangeServers_get_of_not_mem w ip tl _ m h k hn2.1, mapGet_mapSet_self, hs]
      · exact ih _ h hn2.2 h2
    · rw [heq] at h
      simp at h

theorem probeStatus_cases (w : World) (ip : String) (port : Int) :
    probeStatus w ip port = Running ∨ probeStatus w ip port = Unknown := by
  unfold probeStatus
  cases w.output "python" (probeArgs ip port) with
  | none => exact Or.inr rfl
  | some resp =>
    by_cases h : HasPrefix resp.data "OK".data = true
    · simp [h]
    · simp [h]

theorem instanceState_cases (w : World) (ip v s : String)
    (h : instanceState w ip v = some s) : s = Stopped ∨ s = Running ∨ s = Unknown := by
  unfold instanceState at h
  cases hr : w.readFile (lockPath v) with
  | notExist =>
    simp [hr] at h
    exact Or.inl h.symm
  | otherErr => simp [hr] at h
  | data str =>
    cases hl : (Split str.data '\n')[2]? with
    | none => simp [hr, hl] at h
    | some line =>
      simp [hr, hl] at h
      subst h
      exact Or.inr (probeStatus_cases w ip _)

/-- A lock file that is absent, or readable with at least three lines, lets the
iteration assign a state. -/
theorem instanceState_ne_none (w : World) (ip v : String)
    (h : w.readFile (lockPath v) = .notExist ∨
      ∃ str, w.readFile (lockPath v) = .data str ∧ 3 ≤ (Split str.data '\n').length) :
    instanceState w ip v ≠ none := by
  unfold instanceState
  rcases h with h | ⟨str, h, hlen⟩
  · simp [h]
  · have h2 : 2 < (Split str.data '\n').length := hlen
    simp [h, List.getElem?_eq_getElem h2]

/-- Every value of the returned map was there before or is a reconciled state. -/
theorem rangeServers_values (w : World) (ip : String) (cfg st m : serverList)
    (h : (rangeServers w ip cfg st).result = .ok m) (x s : String)
    (hx : mapGet m x = some s) :
    mapGet st x = some s ∨ s = Stopped ∨ s = Running ∨ s = Unknown := by
  induction cfg generalizing st with
  | nil =>
    simp [rangeServers] at h
    subst h
    exact Or.inl hx
  | cons hd tl ih =>
    obtain ⟨k, v⟩ := hd
    rcases rangeServers_cons w ip k v tl st with ⟨s0, hs, heq⟩ | ⟨e, _, heq⟩
    · rw [heq] at h
      rcases ih _ h with h1 | h1
      · by_cases hxk : x = k
        · subst hxk
          rw [mapGet_mapSet_self] at h1
          cases h1
          exact Or.inr (instanceState_cases w ip v s hs)
        · rw [mapGet_mapSet_of_ne _ _ _ _ hxk] at h1
          exact Or.inl h1
      · exact Or.inr h1
    · rw [heq] at h
      simp at h

/-- Every logged call is made by the iteration of some entry. -/
theorem rangeServers_log_mem (w : World) (ip : String) (cfg st : serverList) (e : Event)
    (h : e ∈ (rangeServers w ip cfg st).log) :
    ∃ k v, (k, v) ∈ cfg ∧ e ∈ instanceLog w ip k v := by
  induction cfg generalizing st with
  | nil => simp [rangeServers] at h
  | cons hd tl ih =>
    obtain ⟨k, v⟩ := hd
    rcases rangeServers_cons w ip k v tl st with ⟨s0, _, heq⟩ | ⟨e0, _, heq⟩
    · rw [heq] at h
      rcases List.mem_append.mp h with h1 | h1
      · exact ⟨k, v, List.mem_cons_self _ _, h1⟩
      · obtain ⟨k1, v1, hm, he⟩ := ih _ h1
        exact ⟨k1, v1, List.mem_cons_of_mem _ hm, he⟩
    · rw [heq] at h
      exact ⟨k, v, List.mem_cons_self _ _, h⟩

/-- When the pass returns, the calls of every iteration are in the log. -/
theorem rangeServers_log_of_ok (w : World) (ip : String) (cfg st m : serverList)
    (h : (rangeServers w ip cfg st).result = .ok m) (k v : String) (hk : (k, v) ∈ cfg)
    (e : Event) (he : e ∈ instanceLog w ip k v) :
    e ∈ (rangeServers w ip cfg st).log := by
  induction cfg generalizing st with
  | nil => simp at hk
  | cons hd tl ih =>
    obtain ⟨k0, v0⟩ := hd
    rcases rangeServers_cons w ip k0 v0 tl st with ⟨s0, _, heq⟩ | ⟨e0, _, heq⟩
    · rw [heq] at h ⊢
      rcases List.mem_cons.mp hk with h2 | h2
      · cases h2
        exact List.mem_append_left _ he
      · exact List.mem_append_right _ (ih _ h h2)
    · rw [heq] at h
      simp at h

/-- The calls of one iteration carry the key of that iteration and are no `spawn`. -/
theorem instanceLog_mem (w : World) (ip k v : String) (e : Event)
    (h : e ∈ instanceLog w ip k v) :
    e = .readFile k (lockPath v) ∨
      ∃ str line, w.readFile (lockPath v) = .data str ∧
        (Split str.data '\n')[2]? = some line ∧
        e = .probe k "python" (probeArgs ip (ParseInt line).1) := by
  unfold instanceLog at h
  cases hr : w.readFile (lockPath v) with
  | notExist =>
    simp [hr] at h
    exact Or.inl h
  | otherErr =>
    simp [hr] at h
    exact Or.inl h
  | data str =>
    cases hl : (Split str.data '\n')[2]? with
    | none =>
      simp [hr, hl] at h
      exact Or.inl h
    | some line =>
      simp [hr, hl] at h
      rcases h with h | h
      · exact Or.inl h
      · exact Or.inr ⟨str, line, rfl, hl, h⟩

/-! ## Parsing and formatting the port -/

theorem digitChar_toNat (d : Nat) (h : d < 10) : (Nat.digitChar d).toNat = 48 + d := by
  interval_cases d <;> rfl

/-- One step of the digit loop on a digit that does not overflow. -/
theorem parseUintLoop_digit (d : Nat) (cs : List Char) (n : Nat) (hd : d < 10)
    (hn : n * 10 + d < 2 ^ 64) :
    parseUintLoop (Nat.digitChar d :: cs) n = parseUintLoop cs (n * 10 + d) := by
  have h1 : 48 ≤ (Nat.digitChar d).toNat ∧ (Nat.digitChar d).toNat ≤ 57 := by
    rw [digitChar_toNat d hd]
    omega
  have h2 : ¬ n ≥ maxUint64 / 10 + 1 := by
    simp only [maxUint64]
    omega
  have h3 : (n * 10 + ((Nat.digitChar d).toNat - 48)) % 2 ^ 64 = n * 10 + d := by
    rw [digitChar_toNat d hd]
    have : 48 + d - 48 = d := by omega
    rw [this]
    exact Nat.mod_eq_of_lt hn
  have h4 : ¬ (n * 10 + d < n * 10 ∨ n * 10 + d > maxUint64) := by
    simp only [maxUint64]
    omega
  rw [parseUintLoop]
  simp only [h1, and_self, if_true, h2, if_false, h3, h4]

/-- Reading back the digits that `formatUint` puts in front of `acc`. -/
theorem parseUintLoop_formatUint (fuel : Nat) : ∀ (n : Nat) (acc : List Char),
    n < fuel → n < 2 ^ 64 →
      parseUintLoop (formatUint fuel n acc) 0 = parseUintLoop acc n := by
  induction fuel with
  | zero =>
    intro n acc h
    exact absurd h (Nat.not_lt_zero _)
  | succ fuel ih =>
    intro n acc hf hn
    rw [formatUint]
    by_cases h10 : n / 10 = 0
    · have hlt : n < 10 := by omega
      simp only [h10, if_true]
      rw [Nat.mod_eq_of_lt hlt, parseUintLoop_digit n acc 0 hlt (by omega)]
      simp
    · have hge : 10 ≤ n := by omega
      simp only [h10, if_false]
      rw [ih (n / 10) _ (by omega) (by omega),
        parseUintLoop_digit (n % 10) acc (n / 10) (Nat.mod_lt _ (by omega)) (by omega)]
      congr 1
      omega

theorem formatUint_ne_nil (fuel n : Nat) (acc : List Char) (h : acc ≠ []) :
    formatUint fuel n acc ≠ [] := by
  induction fuel generalizing n acc with
  | zero => simpa [formatUint] using h
  | succ fuel ih =>
    rw [formatUint]
    by_cases h10 : n / 10 = 0
    · simp [h10]
    · simp only [h10, if_false]
      exact ih _ _ (by simp)

/-- Every character `formatUint` puts in front of `acc` is a decimal digit. -/
theorem formatUint_mem (fuel n : Nat) (acc : List Char) (c : Char)
    (h : c ∈ formatUint fuel n acc) : c ∈ acc ∨ ∃ d, d < 10 ∧ c = Nat.digitChar d := by
  induction fuel generalizing n acc with
  | zero => exact Or.inl (by simpa [formatUint] using h)
  | succ fuel ih =>
    rw [formatUint] at h
    have hd : n % 10 < 10 := Nat.mod_lt _ (by omega)
    by_cases h10 : n / 10 = 0
    · simp only [h10, if_true, List.mem_cons] at h
      rcases h with h | h
      · exact Or.inr ⟨n % 10, hd, h⟩
      · exact Or.inl h
    · simp only [h10, if_false] at h
      rcases ih _ _ h with h1 | h1
      · rcases List.mem_cons.mp h1 with h2 | h2
        · exact Or.inr ⟨n % 10, hd, h2⟩
        · exact Or.inl h2
      · exact Or.inr h1

theorem digitChar_ne_sign (d : Nat) (h : d < 10) :
    Nat.digitChar d ≠ '+' ∧ Nat.digitChar d ≠ '-' := by
  interval_cases d <;> decide

/-- The digits of a `uint64` read back as that number. -/
theorem ParseUint_formatUint (n : Nat) (hn : n < 2 ^ 64) :
    ParseUint (formatUint (n + 1) n []) = (n, none) := by
  have hne : formatUint (n + 1) n [] ≠ [] := by
    rw [formatUint]
    by_cases h10 : n / 10 = 0
    · simp [h10]
    · simp only [h10, if_false]
      exact formatUint_ne_nil _ _ _ (by simp)
  rw [ParseUint, if_neg hne, parseUintLoop_formatUint (n + 1) n [] (by omega) hn]
  rfl

theorem wrap64_of_range (x : Int) (hlo : -(2 ^ 63) ≤ x) (hhi : x < 2 ^ 63) : wrap64 x = x := by
  unfold wrap64
  omega

/-- The range check of `ParseInt` once `ParseUint` has returned without a syntax error. -/
theorem ParseInt_cons (c : Char) (cs : List Char) (un : Nat) (err : Option NumError)
    (herr : err ≠ some .ErrSyntax)
    (hu : ParseUint (if c = '+' ∨ c = '-' then cs else c :: cs) = (un, err)) :
    ParseInt (c :: cs) =
      (if decide (c = '-') = false ∧ un ≥ 2 ^ 63 then (2 ^ 63 - 1, some .ErrRange)
        else if decide (c = '-') = true ∧ un > 2 ^ 63 then (-(2 ^ 63), some .ErrRange)
        else (if decide (c = '-') = true then wrap64 (-wrap64 (un : Int))
          else wrap64 (un : Int), none)) := by
  rw [ParseInt]
  simp only []
  rw [hu]
  cases err with
  | none => rfl
  | some e =>
    cases e with
    | ErrSyntax => exact absurd rfl herr
    | ErrRange => rfl

theorem ParseInt_cons_malformed (c : Char) (cs : List Char) (un : Nat)
    (hu : ParseUint (if c = '+' ∨ c = '-' then cs else c :: cs) = (un, some .ErrSyntax)) :
    ParseInt (c :: cs) = (0, some .ErrSyntax) := by
  rw [ParseInt]
  simp only []
  rw [hu]

/-- What `ParseInt` returns for a number in its decimal rendering. -/
theorem ParseInt_Sprintf_d (p : Int) (hlo : -(2 ^ 63) ≤ p) (hhi : p < 2 ^ 63) :
    ParseInt (Sprintf_d p).data = (p, none) := by
  have hu : ParseUint (formatUint (p.natAbs + 1) p.natAbs []) = (p.natAbs, none) :=
    ParseUint_formatUint p.natAbs (by omega)
  by_cases hneg : p < 0
  · have hle : ¬ (decide ('-' = '-') = true ∧ p.natAbs > 2 ^ 63) := by
      rintro ⟨_, h⟩
      omega
    have hf : ¬ (decide ('-' = '-') = false ∧ p.natAbs ≥ 2 ^ 63) := by
      rintro ⟨h, _⟩
      exact absurd h (by decide)
    have hsign : ('-' = '+' ∨ '-' = '-') := Or.inr rfl
    have hw : wrap64 (-wrap64 (p.natAbs : Int)) = p := by
      unfold wrap64
      omega
    rw [Sprintf_d, if_pos hneg]
    show ParseInt ('-' :: formatUint (p.natAbs + 1) p.natAbs []) = (p, none)
    rw [ParseInt_cons '-' _ p.natAbs none (by simp) (by rw [if_pos hsign]; exact hu),
      if_neg hf, if_neg hle, if_pos (by decide), hw]
  · have hlt : ¬ p.natAbs ≥ 2 ^ 63 := by omega
    have hw : wrap64 (p.natAbs : Int) = p := by
      unfold wrap64
      omega
    rw [Sprintf_d, if_neg hneg]
    show ParseInt (formatUint (p.natAbs + 1) p.natAbs []) = (p, none)
    cases hfm : formatUint (p.natAbs + 1) p.natAbs [] with
    | nil =>
      rw [hfm] at hu
      simp [ParseUint] at hu
    | cons c cs =>
      have hc : c ∈ formatUint (p.natAbs + 1) p.natAbs [] := by simp [hfm]
      rcases formatUint_mem _ _ _ _ hc with h1 | ⟨d, hd, h1⟩
      · simp at h1
      · have hs := digitChar_ne_sign d hd
        rw [← h1] at hs
        rw [hfm] at hu
        have hsign : ¬ (c = '+' ∨ c = '-') := by
          rintro (h | h)
          · exact hs.1 h
          · exact hs.2 h
        have hneg1 : ¬ (decide (c = '-') = false ∧ p.natAbs ≥ 2 ^ 63) := by
          rintro ⟨_, h⟩
          exact hlt h
        have hneg2 : ¬ (decide (c = '-') = true ∧ p.natAbs > 2 ^ 63) := by
          rintro ⟨_, h⟩
          omega
        have hneg3 : ¬ (decide (c = '-') = true) := by
          simp [hs.2]
        rw [ParseInt_cons c cs p.natAbs none (by simp) (by rw [if_neg hsign]; exact hu),
          if_neg hneg1, if_neg hneg2, if_neg hneg3, hw]

/-- A discarded error of `ParseInt` leaves 0 for a syntax error and the bound of
`int64` for a range error. -/
theorem ParseInt_error (line : List Char) (e : NumError) (h : (ParseInt line).2 = some e) :
    (e = .ErrSyntax ∧ (ParseInt line).1 = 0) ∨
      (e = .ErrRange ∧ ((ParseInt line).1 = 2 ^ 63 - 1 ∨ (ParseInt line).1 = -(2 ^ 63))) := by
  cases line with
  | nil =>
    simp only [ParseInt] at h ⊢
    simp only [Option.some.injEq] at h
    exact Or.inl ⟨h.symm, trivial⟩
  | cons c cs =>
    rcases hu : ParseUint (if c = '+' ∨ c = '-' then cs else c :: cs) with ⟨un, err⟩
    by_cases herr : err = some .ErrSyntax
    · subst herr
      rw [ParseInt_cons_malformed c cs un hu] at h ⊢
      exact Or.inl ⟨(Option.some.inj h).symm, rfl⟩
    · rw [ParseInt_cons c cs un err herr hu] at h ⊢
      right
      by_cases h1 : decide (c = '-') = false ∧ un ≥ 2 ^ 63
      · rw [if_pos h1] at h ⊢
        exact ⟨(Option.some.inj h).symm, Or.inl rfl⟩
      · rw [if_neg h1] at h ⊢
        by_cases h2 : decide (c = '-') = true ∧ un > 2 ^ 63
        · rw [if_pos h2] at h ⊢
          exact ⟨(Option.some.inj h).symm, Or.inr rfl⟩
        · rw [if_neg h2] at h
          cases h

/-- One step of the digit loop on a digit, with the overflow check. -/
theorem parseUintLoop_digit_overflow (d : Nat) (cs : List Char) (n : Nat) (hd : d < 10)
    (hn : n < 2 ^ 64) (hov : ¬ n * 10 + d < 2 ^ 64) :
    parseUintLoop (Nat.digitChar d :: cs) n = (maxUint64, some .ErrRange) := by
  have h1 : 48 ≤ (Nat.digitChar d).toNat ∧ (Nat.digitChar d).toNat ≤ 57 := by
    rw [digitChar_toNat d hd]
    omega
  rw [parseUintLoop, if_pos h1]
  by_cases h2 : n ≥ maxUint64 / 10 + 1
  · rw [if_pos h2]
  · rw [if_neg h2]
    have h2b : n < 1844674407370955162 := by
      simp only [maxUint64] at h2
      omega
    have h3 : (n * 10 + ((Nat.digitChar d).toNat - 48)) % 2 ^ 64 < n * 10 ∨
        (n * 10 + ((Nat.digitChar d).toNat - 48)) % 2 ^ 64 > maxUint64 := by
      left
      rw [digitChar_toNat d hd]
      omega
    simp only []
    rw [if_pos h3]

/-- Reading back the digits of any natural number: the number when it fits a `uint64`,
a range error with the largest `uint64` otherwise. -/
theorem parseUintLoop_formatUint_any (fuel : Nat) : ∀ (n : Nat) (acc : List Char),
    n < fuel → ¬ n < 2 ^ 64 →
      parseUintLoop (formatUint fuel n acc) 0 = (maxUint64, some .ErrRange) := by
  induction fuel with
  | zero =>
    intro n acc h
    exact absurd h (Nat.not_lt_zero _)
  | succ fuel ih =>
    intro n acc hf hn
    rw [formatUint]
    have h10 : ¬ n / 10 = 0 := by omega
    simp only [h10, if_false]
    by_cases hq : n / 10 < 2 ^ 64
    · rw [parseUintLoop_formatUint fuel (n / 10) _ (by omega) hq]
      exact parseUintLoop_digit_overflow (n % 10) acc (n / 10) (Nat.mod_lt _ (by omega)) hq
        (by omega)
    · exact ih (n / 10) _ (by omega) hq

theorem ParseUint_formatUint_overflow (n : Nat) (hn : ¬ n < 2 ^ 64) :
    ParseUint (formatUint (n + 1) n []) = (maxUint64, some .ErrRange) := by
  have hne : formatUint (n + 1) n [] ≠ [] := by
    rw [formatUint]
    by_cases h10 : n / 10 = 0
    · simp [h10]
    · simp only [h10, if_false]
      exact formatUint_ne_nil _ _ _ (by simp)
  rw [ParseUint, if_neg hne, parseUintLoop_formatUint_any (n + 1) n [] (by omega) hn]

/-- The rendering of a natural number starts with a digit, not with a sign. -/
theorem formatUint_cons (n : Nat) :
    ∃ c cs, formatUint (n + 1) n [] = c :: cs ∧ ¬ (c = '+' ∨ c = '-') := by
  cases hfm : formatUint (n + 1) n [] with
  | nil =>
    exfalso
    rw [formatUint] at hfm
    by_cases h10 : n / 10 = 0
    · simp [h10] at hfm
    · simp only [h10, if_false] at hfm
      exact formatUint_ne_nil _ _ _ (by simp) hfm
  | cons c cs =>
    refine ⟨c, cs, rfl, ?_⟩
    have hc : c ∈ formatUint (n + 1) n [] := by simp [hfm]
    rcases formatUint_mem _ _ _ _ hc with h1 | ⟨d, hd, h1⟩
    · simp at h1
    · have hs := digitChar_ne_sign d hd
      rw [← h1] at hs
      rintro (h | h)
      · exact hs.1 h
      · exact hs.2 h

/-- What `ParseUint` returns for the digits of any natural number. -/
theorem ParseUint_formatUint_any (n : Nat) :
    ∃ un err, ParseUint (formatUint (n + 1) n []) = (un, err) ∧ err ≠ some .ErrSyntax ∧
      (n < 2 ^ 64 → un = n) ∧ (¬ n < 2 ^ 64 → un = maxUint64) := by
  by_cases hn : n < 2 ^ 64
  · exact ⟨n, none, ParseUint_formatUint n hn, by simp, fun _ => rfl, fun h => absurd hn h⟩
  · exact ⟨maxUint64, some .ErrRange, ParseUint_formatUint_overflow n hn, by simp,
      fun h => absurd h hn, fun _ => rfl⟩

/-- The rendering of an integer above the `int64` range is read as the largest `int64`,
with a range error. -/
theorem ParseInt_Sprintf_d_above (p : Int) (hp : 2 ^ 63 ≤ p) :
    ParseInt (Sprintf_d p).data = (2 ^ 63 - 1, some .ErrRange) := by
  have hneg : ¬ p < 0 := by omega
  obtain ⟨un, err, hu, herr, h1, h2⟩ := ParseUint_formatUint_any p.natAbs
  obtain ⟨c, cs, hfm, hsign⟩ := formatUint_cons p.natAbs
  have hun : un ≥ 2 ^ 63 := by
    by_cases hn : p.natAbs < 2 ^ 64
    · rw [h1 hn]
      omega
    · rw [h2 hn]
      simp only [maxUint64]
      omega
  have hc : ¬ c = '-' := fun h => hsign (Or.inr h)
  have hcond : decide (c = '-') = false ∧ un ≥ 2 ^ 63 := ⟨by simp [hc], hun⟩
  rw [Sprintf_d, if_neg hneg]
  show ParseInt (formatUint (p.natAbs + 1) p.natAbs []) = _
  rw [hfm] at hu ⊢
  rw [ParseInt_cons c cs un err herr (by rw [if_neg hsign]; exact hu), if_pos hcond]

/-- The rendering of an integer below the `int64` range is read as the smallest `int64`,
with a range error. -/
theorem ParseInt_Sprintf_d_below (p : Int) (hp : p < -(2 ^ 63)) :
    ParseInt (Sprintf_d p).data = (-(2 ^ 63), some .ErrRange) := by
  have hneg : p < 0 := by omega
  obtain ⟨un, err, hu, herr, h1, h2⟩ := ParseUint_formatUint_any p.natAbs
  have hun : un > 2 ^ 63 := by
    by_cases hn : p.natAbs < 2 ^ 64
    · rw [h1 hn]
      omega
    · rw [h2 hn]
      simp only [maxUint64]
      omega
  have hsign : ('-' = '+' ∨ '-' = '-') := Or.inr rfl
  have hc1 : ¬ (decide ('-' = '-') = false ∧ un ≥ 2 ^ 63) := by
    rintro ⟨h, _⟩
    exact absurd h (by decide)
  have hc2 : decide ('-' = '-') = true ∧ un > 2 ^ 63 := ⟨by decide, hun⟩
  rw [Sprintf_d, if_pos hneg]
  show ParseInt ('-' :: formatUint (p.natAbs + 1) p.natAbs []) = _
  rw [ParseInt_cons '-' _ un err herr (by rw [if_pos hsign]; exact hu), if_neg hc1, if_pos hc2]

/-- Which bound a range error of `ParseInt` leaves: the smallest `int64` when the line
starts with a minus sign, the largest otherwise. -/
theorem ParseInt_range_error (line : List Char) (h : (ParseInt line).2 = some .ErrRange) :
    (line.head? = some '-' → (ParseInt line).1 = -(2 ^ 63)) ∧
      (line.head? ≠ some '-' → (ParseInt line).1 = 2 ^ 63 - 1) := by
  cases line with
  | nil =>
    simp only [ParseInt] at h
    cases h
  | cons c cs =>
    rcases hu : ParseUint (if c = '+' ∨ c = '-' then cs else c :: cs) with ⟨un, err⟩
    by_cases herr : err = some .ErrSyntax
    · subst herr
      rw [ParseInt_cons_malformed c cs un hu] at h
      cases h
    · rw [ParseInt_cons c cs un err herr hu] at h ⊢
      by_cases h1 : decide (c = '-') = false ∧ un ≥ 2 ^ 63
      · rw [if_pos h1]
        have hc : c ≠ '-' := by simpa using h1.1
        refine ⟨?_, fun _ => rfl⟩
        intro hh
        simp only [List.head?_cons, Option.some.injEq] at hh
        exact absurd hh hc
      · rw [if_neg h1] at h ⊢
        by_cases h2 : decide (c = '-') = true ∧ un > 2 ^ 63
        · rw [if_pos h2]
          have hc : c = '-' := by simpa using h2.1
          refine ⟨fun _ => rfl, ?_⟩
          intro hh
          simp only [List.head?_cons, ne_eq, Option.some.injEq] at hh
          exact absurd hc hh
        · rw [if_neg h2] at h
          cases h

/-! ## Claims about `getServerStatuses` -/

/-- C2: when every configured instance's lock file is absent or readable with at least
three lines, `getServerStatuses` returns a map whose keys are exactly the configured
logical names, each once, and whose values are among the six states. -/
theorem getServerStatuses_keys_and_states (w : World) (ip : String) (cfg : serverList)
    (h : ∀ k v, (k, v) ∈ cfg → w.readFile (lockPath v) = .notExist ∨
      ∃ str, w.readFile (lockPath v) = .data str ∧ 3 ≤ (Split str.data '\n').length) :
    ∃ m, (getServerStatuses w ip cfg).result = .ok m ∧
      (∀ x, x ∈ mapKeys m ↔ x ∈ mapKeys cfg) ∧ (mapKeys m).Nodup ∧
      ∀ x s, mapGet m x = some s →
        s ∈ [Stopped, Starting, Running, ShuttingDown, Updating, Unknown] := by
  have hall : ∀ p ∈ cfg, instanceState w ip p.2 ≠ none := fun p hp =>
    instanceState_ne_none w ip p.2 (h p.1 p.2 hp)
  obtain ⟨m, hm⟩ := (rangeServers_ok_iff w ip cfg []).mpr hall
  refine ⟨m, hm, ?_, ?_, ?_⟩
  · intro x
    rw [rangeServers_keys w ip cfg [] m hm x]
    simp [mapKeys]
  · exact rangeServers_nodup w ip cfg [] m hm (by simp [mapKeys])
  · intro x s hx
    rcases rangeServers_values w ip cfg [] m hm x s hx with h1 | h1 | h1 | h1
    · simp [mapGet] at h1
    · simp [h1]
    · simp [h1]
    · simp [h1]

set_option maxRecDepth 100000 in
/-- C2 at the configured `servers`, with `vhserver` running. -/
theorem getServerStatuses_keys_and_states_witness :
    ∃ m, (getServerStatuses worldDefaultUp exampleIp servers).result = .ok m ∧
      (∀ x, x ∈ mapKeys m ↔ x ∈ mapKeys servers) ∧ (mapKeys m).Nodup ∧
      ∀ x s, mapGet m x = some s →
        s ∈ [Stopped, Starting, Running, ShuttingDown, Updating, Unknown] :=
  getServerStatuses_keys_and_states worldDefaultUp exampleIp servers (by
    intro k v hkv
    have h2 : (k, v) = ("Rotis", "vhserver-2") ∨ (k, v) = ("Default", "vhserver") := by
      simpa [servers] using hkv
    rcases h2 with h2 | h2
    · cases h2
      exact Or.inl (by decide)
    · cases h2
      exact Or.inr ⟨"vhserver\n1700000000\n2456\n", by decide, by decide⟩)

/-- C3: an instance whose lock file does not exist is never probed, and the map
`getServerStatuses` returns holds `Stopped` for it, whatever the world answers to a
probe. -/
theorem getServerStatuses_absent_lock (w : World) (ip : String) (cfg : serverList)
    (k v : String) (hn : (mapKeys cfg).Nodup) (hk : (k, v) ∈ cfg)
    (habs : w.readFile (lockPath v) = .notExist) :
    (∀ name args, Event.probe k name args ∉ (getServerStatuses w ip cfg).log) ∧
      ∀ m, (getServerStatuses w ip cfg).result = .ok m → mapGet m k = some Stopped := by
  constructor
  · intro name args hmem
    obtain ⟨k1, v1, hk1, he⟩ := rangeServers_log_mem w ip cfg [] _ hmem
    rcases instanceLog_mem w ip k1 v1 _ he with h1 | ⟨str, line, hr, _, h1⟩
    · cases h1
    · injection h1 with hkk _ _
      subst hkk
      have hv : mapGet cfg k = some v := mapGet_of_mem cfg k v hn hk
      have hv1 : mapGet cfg k = some v1 := mapGet_of_mem cfg k v1 hn hk1
      rw [hv] at hv1
      cases hv1
      rw [habs] at hr
      cases hr
  · intro m hm
    rw [rangeServers_get_of_mem w ip cfg [] m hm hn k v hk]
    simp [instanceState, habs]

set_option maxRecDepth 100000 in
/-- C3 at the configured `servers`: `Rotis` has no lock file while `vhserver` runs. -/
theorem getServerStatuses_absent_lock_witness :
    (∀ name args,
        Event.probe "Rotis" name args ∉ (getServerStatuses worldDefaultUp exampleIp servers).log) ∧
      ∀ m, (getServerStatuses worldDefaultUp exampleIp servers).result = .ok m →
        mapGet m "Rotis" = some Stopped :=
  getServerStatuses_absent_lock worldDefaultUp exampleIp servers "Rotis" "vhserver-2"
    (by decide) (by decide) (by decide)

/-- C4: for an instance whose lock file is readable and has a third line, the returned
map holds `Running` exactly when the probe of that port succeeds with an output
beginning with `OK`, and `Unknown` in every other case. -/
theorem getServerStatuses_present_lock (w : World) (ip : String) (cfg m : serverList)
    (k v str : String) (line : List Char) (hn : (mapKeys cfg).Nodup) (hk : (k, v) ∈ cfg)
    (hr : w.readFile (lockPath v) = .data str) (hl : (Split str.data '\n')[2]? = some line)
    (hm : (getServerStatuses w ip cfg).result = .ok m) :
    (mapGet m k = some Running ↔
        ∃ resp, w.output "python" (probeArgs ip (ParseInt line).1) = some resp ∧
          HasPrefix resp.data "OK".data = true) ∧
      ((¬ ∃ resp, w.output "python" (probeArgs ip (ParseInt line).1) = some resp ∧
          HasPrefix resp.data "OK".data = true) → mapGet m k = some Unknown) := by
  have hget : mapGet m k = some (probeStatus w ip (ParseInt line).1) := by
    rw [rangeServers_get_of_mem w ip cfg [] m hm hn k v hk]
    simp [instanceState, hr, hl]
  have hne : Unknown ≠ Running := by decide
  rw [hget]
  unfold probeStatus
  cases ho : w.output "python" (probeArgs ip (ParseInt line).1) with
  | none => simp [hne]
  | some resp =>
    by_cases hp : HasPrefix resp.data "OK".data = true
    · simp [hp]
    · simp [hp, hne]

set_option maxRecDepth 100000 in
/-- C4 at the configured `servers`: `Default` has base port 2456 and its probe
answers `OK`. -/
theorem getServerStatuses_present_lock_witness :
    (mapGet [("Rotis", Stopped), ("Default", Running)] "Default" = some Running ↔
        ∃ resp, worldDefaultUp.output "python"
            (probeArgs exampleIp (ParseInt "2456".data).1) = some resp ∧
          HasPrefix resp.data "OK".data = true) ∧
      ((¬ ∃ resp, worldDefaultUp.output "python"
            (probeArgs exampleIp (ParseInt "2456".data).1) = some resp ∧
          HasPrefix resp.data "OK".data = true) →
        mapGet [("Rotis", Stopped), ("Default", Running)] "Default" = some Unknown) :=
  getServerStatuses_present_lock worldDefaultUp exampleIp servers
    [("Rotis", Stopped), ("Default", Running)] "Default" "vhserver"
    "vhserver\n1700000000\n2456\n" "2456".data (by decide) (by decide) (by decide)
    (by decide) (by decide)

/-- C7, as the claim states it, fails: with the lock file of `vhserver` unreadable the
pass panics and returns no map, also not for `Rotis`, which has no fault. -/
theorem getServerStatuses_read_error_aborts :
    (getServerStatuses worldReadError exampleIp servers).result = .error .readError ∧
      ¬ ∃ m, (getServerStatuses worldReadError exampleIp servers).result = .ok m := by
  have h : (getServerStatuses worldReadError exampleIp servers).result = .error .readError := by
    decide
  refine ⟨h, ?_⟩
  rintro ⟨m, hm⟩
  rw [h] at hm
  cases hm

/-- C7, amended: when every configured instance's lock file is absent or readable with
at least three lines the pass returns a state for every configured instance, and a read
error other than not-found on any configured instance aborts the whole pass. -/
theorem getServerStatuses_completes_or_aborts (w : World) (ip : String) (cfg : serverList) :
    ((∀ k v, (k, v) ∈ cfg → w.readFile (lockPath v) = .notExist ∨
        ∃ str, w.readFile (lockPath v) = .data str ∧ 3 ≤ (Split str.data '\n').length) →
      ∃ m, (getServerStatuses w ip cfg).result = .ok m ∧
        ∀ k ∈ mapKeys cfg, ∃ s, mapGet m k = some s) ∧
    ((∃ k v, (k, v) ∈ cfg ∧ w.readFile (lockPath v) = .otherErr) →
      ∃ e, (getServerStatuses w ip cfg).result = .error e) := by
  constructor
  · intro h
    have hall : ∀ p ∈ cfg, instanceState w ip p.2 ≠ none := fun p hp =>
      instanceState_ne_none w ip p.2 (h p.1 p.2 hp)
    obtain ⟨m, hm⟩ := (rangeServers_ok_iff w ip cfg []).mpr hall
    refine ⟨m, hm, ?_⟩
    intro k hk
    have hk2 : k ∈ mapKeys m := (rangeServers_keys w ip cfg [] m hm k).mpr (Or.inr hk)
    cases hg : mapGet m k with
    | none => exact absurd hk2 ((mapGet_eq_none_iff m k).mp hg)
    | some s => exact ⟨s, rfl⟩
  · rintro ⟨k, v, hk, herr⟩
    cases hres : (getServerStatuses w ip cfg).result with
    | error e => exact ⟨e, rfl⟩
    | ok m =>
      have h1 := (rangeServers_ok_iff w ip cfg []).mp ⟨m, hres⟩ (k, v) hk
      simp [instanceState, herr] at h1

set_option maxRecDepth 100000 in
/-- C7, amended, at the configured `servers`: the pass completes when `vhserver` runs,
and aborts when its lock file is unreadable. -/
theorem getServerStatuses_completes_or_aborts_witness :
    (∃ m, (getServerStatuses worldDefaultUp exampleIp servers).result = .ok m ∧
        ∀ k ∈ mapKeys servers, ∃ s, mapGet m k = some s) ∧
      ∃ e, (getServerStatuses worldReadError exampleIp servers).result = .error e :=
  ⟨(getServerStatuses_completes_or_aborts worldDefaultUp exampleIp servers).1 (by
      intro k v hkv
      have h2 : (k, v) = ("Rotis", "vhserver-2") ∨ (k, v) = ("Default", "vhserver") := by
        simpa [servers] using hkv
      rcases h2 with h2 | h2
      · cases h2
        exact Or.inl (by decide)
      · cases h2
        exact Or.inr ⟨"vhserver\n1700000000\n2456\n", by decide, by decide⟩),
    (getServerStatuses_completes_or_aborts worldReadError exampleIp servers).2
      ⟨"Default", "vhserver", by decide, by decide⟩⟩

/-- C10: every value of the map `getServerStatuses` returns is `Stopped`, `Running` or
`Unknown` and none of the transient states, and the answer to a GET is that map, so it
holds no transient state either, in whatever world an earlier POST has left. -/
theorem getServerStatuses_never_transient (w : World) (ip : String) (cfg s m : serverList)
    (unmarshal : String → Option serverRequest) (body : Option String)
    (hm : (getServerStatuses w ip cfg).result = .ok m) :
    (∀ x st, mapGet m x = some st →
        (st = Stopped ∨ st = Running ∨ st = Unknown) ∧
          st ≠ Starting ∧ st ≠ ShuttingDown ∧ st ≠ Updating) ∧
      (ServeHTTP w ip cfg unmarshal s freshWriter ⟨"GET", body⟩).result =
        .ok ⟨some 200, [⟨m⟩]⟩ := by
  constructor
  · intro x st hx
    rcases rangeServers_values w ip cfg [] m hm x st hx with h1 | h1 | h1 | h1
    · simp [mapGet] at h1
    · subst h1
      exact ⟨Or.inl rfl, by decide, by decide, by decide⟩
    · subst h1
      exact ⟨Or.inr (Or.inl rfl), by decide, by decide, by decide⟩
    · subst h1
      exact ⟨Or.inr (Or.inr rfl), by decide, by decide, by decide⟩
  · simp [ServeHTTP, hm, ResponseWriter.Write, freshWriter]

set_option maxRecDepth 100000 in
/-- C10 at the configured `servers` with `vhserver` running: the GET answers 200 with
the reconciled map, which is free of transient states. -/
theorem getServerStatuses_never_transient_witness :
    (∀ x st, mapGet [("Rotis", Stopped), ("Default", Running)] x = some st →
        (st = Stopped ∨ st = Running ∨ st = Unknown) ∧
          st ≠ Starting ∧ st ≠ ShuttingDown ∧ st ≠ Updating) ∧
      (ServeHTTP worldDefaultUp exampleIp servers exampleUnmarshal servers freshWriter
          ⟨"GET", none⟩).result =
        .ok ⟨some 200, [⟨[("Rotis", Stopped), ("Default", Running)]⟩]⟩ :=
  getServerStatuses_never_transient worldDefaultUp exampleIp servers servers
    [("Rotis", Stopped), ("Default", Running)] exampleUnmarshal none (by decide)

/-! ## Claims about the probed port -/

/-- With the pass returning and a readable lock file with a third line, the probe of
the iteration is in the log, and it is the only probe made for that key. -/
theorem getServerStatuses_probe (w : World) (ip : String) (cfg m : serverList)
    (k v str : String) (line : List Char) (hn : (mapKeys cfg).Nodup) (hk : (k, v) ∈ cfg)
    (hr : w.readFile (lockPath v) = .data str) (hl : (Split str.data '\n')[2]? = some line)
    (hm : (getServerStatuses w ip cfg).result = .ok m) :
    Event.probe k "python" (probeArgs ip (ParseInt line).1) ∈
        (getServerStatuses w ip cfg).log ∧
      ∀ name args, Event.probe k name args ∈ (getServerStatuses w ip cfg).log →
        name = "python" ∧ args = probeArgs ip (ParseInt line).1 := by
  constructor
  · apply rangeServers_log_of_ok w ip cfg [] m hm k v hk
    simp [instanceLog, hr, hl]
  · intro name args hmem
    obtain ⟨k1, v1, hk1, he⟩ := rangeServers_log_mem w ip cfg [] _ hmem
    rcases instanceLog_mem w ip k1 v1 _ he with h1 | ⟨str1, line1, hr1, hl1, h1⟩
    · cases h1
    · injection h1 with hkk hname hargs
      subst hkk
      have hv : mapGet cfg k = some v := mapGet_of_mem cfg k v hn hk
      have hv1 : mapGet cfg k = some v1 := mapGet_of_mem cfg k v1 hn hk1
      rw [hv] at hv1
      cases hv1
      rw [hr] at hr1
      cases hr1
      rw [hl] at hl1
      cases hl1
      exact ⟨hname, hargs⟩

set_option maxRecDepth 100000 in
/-- C8, as the claim states it, fails: with `abc` as the third line of the lock file of
`vhserver`, `ParseInt` reports a syntax error, the base port is taken to be 0 and
port 1 is probed. -/
theorem getServerStatuses_bad_port_probes_one :
    (Split "vhserver\n1700000000\nabc".data '\n')[2]? = some "abc".data ∧
    ParseInt "abc".data = (0, some .ErrSyntax) ∧
    Event.probe "Default" "python"
        [lgsmDir ++ "functions/query_gsquery.py", "-a", exampleIp, "-p", "1", "-e",
          "protocol-valve"] ∈
      (getServerStatuses worldBadPort exampleIp servers).log := by
  refine ⟨by decide, by decide, by decide⟩

/-- C8, amended: when the third line of a present lock file is not a valid decimal
integer the error of `ParseInt` is discarded and the probe is still made, for the value
`ParseInt` returned plus one and for no other port.  After a syntax error the base port
is 0 and port 1 is probed.  After a range error the base port is the largest `int64`
when the line has no leading minus sign, and the probed port wraps to
-9223372036854775808; it is the smallest `int64` when the line has one, and the probed
port is -9223372036854775807.  The rendering of an integer above the `int64` range gives
the largest `int64`, of one below it the smallest.  The state of the instance is what
that probe gives. -/
theorem getServerStatuses_invalid_port (w : World) (ip : String) (cfg m : serverList)
    (k v str : String) (line : List Char) (e : NumError) (hn : (mapKeys cfg).Nodup)
    (hk : (k, v) ∈ cfg) (hr : w.readFile (lockPath v) = .data str)
    (hl : (Split str.data '\n')[2]? = some line) (he : (ParseInt line).2 = some e)
    (hm : (getServerStatuses w ip cfg).result = .ok m) :
    (e = .ErrSyntax →
      (ParseInt line).1 = 0 ∧
      Event.probe k "python"
          [lgsmDir ++ "functions/query_gsquery.py", "-a", ip, "-p", "1", "-e",
            "protocol-valve"] ∈ (getServerStatuses w ip cfg).log) ∧
    (e = .ErrRange → line.head? ≠ some '-' →
      (ParseInt line).1 = 2 ^ 63 - 1 ∧
      Event.probe k "python"
          [lgsmDir ++ "functions/query_gsquery.py", "-a", ip, "-p", "-9223372036854775808",
            "-e", "protocol-valve"] ∈ (getServerStatuses w ip cfg).log) ∧
    (e = .ErrRange → line.head? = some '-' →
      (ParseInt line).1 = -(2 ^ 63) ∧
      Event.probe k "python"
          [lgsmDir ++ "functions/query_gsquery.py", "-a", ip, "-p", "-9223372036854775807",
            "-e", "protocol-valve"] ∈ (getServerStatuses w ip cfg).log) ∧
    (∀ p : Int, line = (Sprintf_d p).data →
      (2 ^ 63 ≤ p → e = .ErrRange ∧ (ParseInt line).1 = 2 ^ 63 - 1) ∧
      (p < -(2 ^ 63) → e = .ErrRange ∧ (ParseInt line).1 = -(2 ^ 63))) ∧
    (∀ name args, Event.probe k name args ∈ (getServerStatuses w ip cfg).log →
      name = "python" ∧ args = probeArgs ip (ParseInt line).1) ∧
    mapGet m k = some (probeStatus w ip (ParseInt line).1) := by
  have hboth := getServerStatuses_probe w ip cfg m k v str line hn hk hr hl hm
  have hp := hboth.1
  have h0 : Sprintf_d (wrap64 (0 + 1)) = "1" := by decide
  have h1 : Sprintf_d (wrap64 (2 ^ 63 - 1 + 1)) = "-9223372036854775808" := by decide
  have h2 : Sprintf_d (wrap64 (-(2 ^ 63) + 1)) = "-9223372036854775807" := by decide
  refine ⟨?_, ?_, ?_, ?_, hboth.2, ?_⟩
  · intro hs
    rcases ParseInt_error line e he with ⟨_, hv⟩ | ⟨h3, _⟩
    · refine ⟨hv, ?_⟩
      rw [hv, probeArgs, h0] at hp
      exact hp
    · rw [hs] at h3
      cases h3
  · intro hs hhead
    rw [hs] at he
    have hv := (ParseInt_range_error line he).2 hhead
    refine ⟨hv, ?_⟩
    rw [hv, probeArgs, h1] at hp
    exact hp
  · intro hs hhead
    rw [hs] at he
    have hv := (ParseInt_range_error line he).1 hhead
    refine ⟨hv, ?_⟩
    rw [hv, probeArgs, h2] at hp
    exact hp
  · intro p hline
    constructor
    · intro hp2
      have hparse := ParseInt_Sprintf_d_above p hp2
      rw [← hline] at hparse
      rw [hparse] at he ⊢
      exact ⟨(Option.some.inj he).symm, rfl⟩
    · intro hp2
      have hparse := ParseInt_Sprintf_d_below p hp2
      rw [← hline] at hparse
      rw [hparse] at he ⊢
      exact ⟨(Option.some.inj he).symm, rfl⟩
  · rw [rangeServers_get_of_mem w ip cfg [] m hm hn k v hk]
    simp [instanceState, hr, hl]

set_option maxRecDepth 100000 in
/-- C8, amended, at the configured `servers` with three port lines of `vhserver`:
`abc` (syntax error, port 1), `9223372036854775808` (range error above, the largest
`int64`, port -9223372036854775808) and `-9223372036854775809` (range error below, the
smallest `int64`, port -9223372036854775807). -/
theorem getServerStatuses_invalid_port_witness :
    ((ParseInt "abc".data).1 = 0 ∧
      Event.probe "Default" "python"
        [lgsmDir ++ "functions/query_gsquery.py", "-a", exampleIp, "-p", "1", "-e",
          "protocol-valve"] ∈ (getServerStatuses worldBadPort exampleIp servers).log) ∧
    ((ParseInt "9223372036854775808".data).1 = 2 ^ 63 - 1 ∧
      Event.probe "Default" "python"
        [lgsmDir ++ "functions/query_gsquery.py", "-a", exampleIp, "-p",
          "-9223372036854775808", "-e", "protocol-valve"] ∈
        (getServerStatuses worldOverPort exampleIp servers).log) ∧
    ((ParseInt "-9223372036854775809".data).1 = -(2 ^ 63) ∧
      Event.probe "Default" "python"
        [lgsmDir ++ "functions/query_gsquery.py", "-a", exampleIp, "-p",
          "-9223372036854775807", "-e", "protocol-valve"] ∈
        (getServerStatuses worldUnderPort exampleIp servers).log) :=
  ⟨(getServerStatuses_invalid_port worldBadPort exampleIp servers
      [("Rotis", Stopped), ("Default", Unknown)] "Default" "vhserver"
      "vhserver\n1700000000\nabc" "abc".data .ErrSyntax (by decide) (by decide) (by decide)
      (by decide) (by decide) (by decide)).1 rfl,
    (getServerStatuses_invalid_port worldOverPort exampleIp servers
      [("Rotis", Stopped), ("Default", Unknown)] "Default" "vhserver"
      "vhserver\n1700000000\n9223372036854775808" "9223372036854775808".data .ErrRange
      (by decide) (by decide) (by decide) (by decide) (by decide) (by decide)).2.1 rfl
      (by decide),
    (getServerStatuses_invalid_port worldUnderPort exampleIp servers
      [("Rotis", Stopped), ("Default", Unknown)] "Default" "vhserver"
      "vhserver\n1700000000\n-9223372036854775809" "-9223372036854775809".data .ErrRange
      (by decide) (by decide) (by decide) (by decide) (by decide) (by decide)).2.2.1 rfl
      (by decide)⟩

set_option maxRecDepth 100000 in
/-- C9, as the claim states it, fails: with the largest `int64` as the third line the
probe is made for port -9223372036854775808, not for 9223372036854775808. -/
theorem getServerStatuses_max_port_wraps :
    (Split "vhserver\n1700000000\n9223372036854775807".data '\n')[2]? =
        some (Sprintf_d 9223372036854775807).data ∧
    Event.probe "Default" "python"
        [lgsmDir ++ "functions/query_gsquery.py", "-a", exampleIp, "-p",
          "-9223372036854775808", "-e", "protocol-valve"] ∈
      (getServerStatuses worldMaxPort exampleIp servers).log ∧
    Event.probe "Default" "python"
        [lgsmDir ++ "functions/query_gsquery.py", "-a", exampleIp, "-p",
          Sprintf_d (9223372036854775807 + 1), "-e", "protocol-valve"] ∉
      (getServerStatuses worldMaxPort exampleIp servers).log := by
  refine ⟨by decide, by decide, by decide⟩

/-- C9, amended: when the third line of a present lock file is the decimal rendering of
an integer `p` with `-2^63 ≤ p ≤ 2^63 - 2`, the probe of that instance is made with
port `p + 1` in decimal, and with no other port. -/
theorem getServerStatuses_probe_port (w : World) (ip : String) (cfg m : serverList)
    (k v str : String) (p : Int) (hn : (mapKeys cfg).Nodup) (hk : (k, v) ∈ cfg)
    (hr : w.readFile (lockPath v) = .data str)
    (hl : (Split str.data '\n')[2]? = some (Sprintf_d p).data)
    (hlo : -(2 ^ 63) ≤ p) (hhi : p ≤ 2 ^ 63 - 2)
    (hm : (getServerStatuses w ip cfg).result = .ok m) :
    Event.probe k "python"
        [lgsmDir ++ "functions/query_gsquery.py", "-a", ip, "-p", Sprintf_d (p + 1), "-e",
          "protocol-valve"] ∈ (getServerStatuses w ip cfg).log ∧
      ∀ name args, Event.probe k name args ∈ (getServerStatuses w ip cfg).log →
        name = "python" ∧
          args = [lgsmDir ++ "functions/query_gsquery.py", "-a", ip, "-p", Sprintf_d (p + 1),
            "-e", "protocol-valve"] := by
  have hp := getServerStatuses_probe w ip cfg m k v str _ hn hk hr hl hm
  have hparse : (ParseInt (Sprintf_d p).data).1 = p := by
    rw [ParseInt_Sprintf_d p hlo (by omega)]
  have hw : wrap64 (p + 1) = p + 1 := wrap64_of_range (p + 1) (by omega) (by omega)
  rw [hparse, probeArgs, hw] at hp
  exact hp

set_option maxRecDepth 100000 in
/-- C9, amended, at the configured `servers`: base port 2456 gives a probe of 2457. -/
theorem getServerStatuses_probe_port_witness :
    Event.probe "Default" "python"
        [lgsmDir ++ "functions/query_gsquery.py", "-a", exampleIp, "-p",
          Sprintf_d (2456 + 1), "-e", "protocol-valve"] ∈
        (getServerStatuses worldDefaultUp exampleIp servers).log ∧
      ∀ name args,
        Event.probe "Default" name args ∈
            (getServerStatuses worldDefaultUp exampleIp servers).log →
          name = "python" ∧
            args = [lgsmDir ++ "functions/query_gsquery.py", "-a", exampleIp, "-p",
              Sprintf_d (2456 + 1), "-e", "protocol-valve"] :=
  getServerStatuses_probe_port worldDefaultUp exampleIp servers
    [("Rotis", Stopped), ("Default", Running)] "Default" "vhserver"
    "vhserver\n1700000000\n2456\n" 2456 (by decide) (by decide) (by decide) (by decide)
    (by decide) (by decide) (by decide)

/-! ## Claims about `ServeHTTP` -/

/-- The reconciliation pass starts no toolchain command. -/
theorem getServerStatuses_no_spawn (w : World) (ip : String) (cfg : serverList)
    (name verb : String) : Event.spawn name verb ∉ (getServerStatuses w ip cfg).log := by
  intro hmem
  obtain ⟨k1, v1, _, he⟩ := rangeServers_log_mem w ip cfg [] _ hmem
  rcases instanceLog_mem w ip k1 v1 _ he with h1 | ⟨_, _, _, _, h1⟩
  · cases h1
  · cases h1

set_option maxRecDepth 100000 in
/-- C1 at a failing input: with no lock file anywhere, the POST of `Start` for `Rotis`
answers a map in which `Rotis` is still `Stopped` and a third key, the physical
identifier `vhserver-2`, holds `Starting`. -/
theorem ServeHTTP_start_Rotis :
    exampleUnmarshal "start Rotis" = some ⟨"Rotis", "Start"⟩ ∧
    (getServerStatuses worldAllStopped exampleIp servers).result =
        .ok [("Rotis", "Stopped"), ("Default", "Stopped")] ∧
    (ServeHTTP worldAllStopped exampleIp servers exampleUnmarshal servers freshWriter
        ⟨"POST", some "start Rotis"⟩).result =
      .ok ⟨some 200,
        [⟨[("Rotis", "Stopped"), ("Default", "Stopped"), ("vhserver-2", "Starting")]⟩]⟩ := by
  refine ⟨by decide, by decide, by decide⟩

set_option maxRecDepth 100000 in
/-- C5 at a failing input: the POST of the unrecognized action `Restart` for `Default`,
whose lock file is present, reads both lock files and spawns the probe process before
the action is looked at, and after `WriteHeader(400)` the reconciled map is still
written as body; the POST for the unknown name `Z` in the same world makes no external
call and writes nothing. -/
theorem ServeHTTP_unrecognized_action_probes :
    exampleUnmarshal "restart Default" = some ⟨"Default", "Restart"⟩ ∧
    mapGet servers "Default" = some "vhserver" ∧
    (ServeHTTP worldDefaultUp exampleIp servers exampleUnmarshal servers freshWriter
        ⟨"POST", some "restart Default"⟩).log =
      [.readFile "Rotis" (lockPath "vhserver-2"), .readFile "Default" (lockPath "vhserver"),
        .probe "Default" "python" (probeArgs exampleIp 2456)] ∧
    (ServeHTTP worldDefaultUp exampleIp servers exampleUnmarshal servers freshWriter
        ⟨"POST", some "restart Default"⟩).result =
      .ok ⟨some 400, [⟨[("Rotis", "Stopped"), ("Default", "Running")]⟩]⟩ ∧
    (ServeHTTP worldDefaultUp exampleIp servers exampleUnmarshal servers freshWriter
        ⟨"POST", some "start Z"⟩).log = [] ∧
    (ServeHTTP worldDefaultUp exampleIp servers exampleUnmarshal servers freshWriter
        ⟨"POST", some "start Z"⟩).result = .ok ⟨some 400, []⟩ := by
  refine ⟨by decide, by decide, by decide, by decide, by decide, by decide⟩

/-- What the handler does on an action other than `Start`, `Stop` and `Update` for a
configured name: the external calls are those of the reconciliation pass, none of them
a toolchain command, and a returning pass is followed by status 400 and the map. -/
theorem ServeHTTP_default_branch (w : World) (ip : String) (cfg : serverList)
    (unmarshal : String → Option serverRequest) (data server : String) (body : serverRequest)
    (hb : unmarshal data = some body) (hs : mapGet cfg body.Server = some server)
    (ha : body.Action ≠ "Start" ∧ body.Action ≠ "Stop" ∧ body.Action ≠ "Update") :
    (ServeHTTP w ip cfg unmarshal cfg freshWriter ⟨"POST", some data⟩).log =
        (getServerStatuses w ip cfg).log ∧
    (∀ name verb, Event.spawn name verb ∉
        (ServeHTTP w ip cfg unmarshal cfg freshWriter ⟨"POST", some data⟩).log) ∧
    (∀ m, (getServerStatuses w ip cfg).result = .ok m →
        (ServeHTTP w ip cfg unmarshal cfg freshWriter ⟨"POST", some data⟩).result =
          .ok ⟨some 400, [⟨m⟩]⟩) := by
  obtain ⟨ha1, ha2, ha3⟩ := ha
  have hlog : (ServeHTTP w ip cfg unmarshal cfg freshWriter ⟨"POST", some data⟩).log =
      (getServerStatuses w ip cfg).log := by
    cases hres : (getServerStatuses w ip cfg).result with
    | error e => simp [ServeHTTP, hb, hs, hres]
    | ok m => simp [ServeHTTP, hb, hs, hres, ha1, ha2, ha3]
  refine ⟨hlog, ?_, ?_⟩
  · intro name verb
    rw [hlog]
    exact getServerStatuses_no_spawn w ip cfg name verb
  · intro m hres
    simp [ServeHTTP, hb, hs, hres, ha1, ha2, ha3, ResponseWriter.Write,
      ResponseWriter.WriteHeader, freshWriter]

/-- C6: a POST whose server name is not a key of the configured mapping answers 400 and
makes no external call at all, whatever the action. -/
theorem ServeHTTP_unknown_server (w : World) (ip : String) (cfg s : serverList)
    (unmarshal : String → Option serverRequest) (data : String) (body : serverRequest)
    (hb : unmarshal data = some body) (hs : body.Server ∉ mapKeys s) :
    (ServeHTTP w ip cfg unmarshal s freshWriter ⟨"POST", some data⟩).log = [] ∧
      (ServeHTTP w ip cfg unmarshal s freshWriter ⟨"POST", some data⟩).result =
        .ok ⟨some 400, []⟩ := by
  have hg : mapGet s body.Server = none := (mapGet_eq_none_iff s body.Server).mpr hs
  simp [ServeHTTP, hb, hg, ResponseWriter.WriteHeader, freshWriter]

set_option maxRecDepth 100000 in
/-- C6 at the configured `servers`: `Start` for the unknown name `Z` while `vhserver`
runs. -/
theorem ServeHTTP_unknown_server_witness :
    (ServeHTTP worldDefaultUp exampleIp servers exampleUnmarshal servers freshWriter
        ⟨"POST", some "start Z"⟩).log = [] ∧
      (ServeHTTP worldDefaultUp exampleIp servers exampleUnmarshal servers freshWriter
        ⟨"POST", some "start Z"⟩).result = .ok ⟨some 400, []⟩ :=
  ServeHTTP_unknown_server worldDefaultUp exampleIp servers servers exampleUnmarshal
    "start Z" ⟨"Z", "Start"⟩ (by decide) (by decide)

end Vhadmin
